import Mathlib

/-!
Shallow embedding of the NAD C338 TCP protocol client
(src/custom_components/nadtcp2/media_player.py).

Python strings are modelled as `List Char`; Python values reaching the
codec as `PyVal` (bool / int / float / str).  Python floats are modelled
as rationals: every float the codec renders or that a claim mentions is
an exact small decimal, and the protocol's value domains only contain
integral floats.  Each distinct `raise` site (KeyError / ValueError /
IndexError / tuple-unpack failure) is a distinct `PyErr` constructor.
Python's `is` on the interned single-character operator literals is
modelled as string equality.  Whitespace/underscore tolerance of
Python's `int()`/`float()` and the shortest-roundtrip rendering of
non-integral floats are not modelled: no modelled code path and no
protocol domain produces a non-integral float to render.
-/

namespace NadTcp

deriving instance DecidableEq for Except

abbrev Str := List Char

/-- A Python value as it reaches the codec paths of the client. -/
inductive PyVal where
  | pbool (b : Bool)
  | pint (n : Int)
  | pfloat (q : Rat)
  | pstr (s : Str)
deriving DecidableEq, Repr

/-- One constructor per distinct failure site in the Python code. -/
inductive PyErr where
  | unknownCommand
  | unsupportedOperator
  | missingValue
  | unexpectedValue
  | valueOutOfDomain
  | coercionFailure
  | indexFailure
  | unpackFailure
deriving DecidableEq, Repr

/-- A command descriptor's value domain: Python `range(lo, hi)` or a list
of strings. -/
inductive Domain where
  | intRange (lo hi : Int)
  | strList (xs : List Str)
deriving DecidableEq, Repr

inductive PyType where
  | tbool
  | tint
  | tfloat
deriving DecidableEq, Repr

structure CmdDesc where
  ops : List Str
  values : Option Domain
  ty : Option PyType
deriving DecidableEq, Repr

def qOp : Str := "?".toList

def plusOp : Str := "+".toList

def minusOp : Str := "-".toList

def eqOp : Str := "=".toList

/-- The `C338_CMDS` table. -/
def C338_CMDS : List (Str × CmdDesc) :=
  [ ("Main".toList, ⟨[qOp], none, none⟩),
    ("Main.AnalogGain".toList,
      ⟨[plusOp, minusOp, eqOp, qOp], some (.intRange 0 0), some .tint⟩),
    ("Main.Brightness".toList,
      ⟨[plusOp, minusOp, eqOp, qOp], some (.intRange 0 4), some .tint⟩),
    ("Main.Mute".toList,
      ⟨[plusOp, minusOp, eqOp, qOp],
        some (.strList ["Off".toList, "On".toList]), some .tbool⟩),
    ("Main.Power".toList,
      ⟨[plusOp, minusOp, eqOp, qOp],
        some (.strList ["Off".toList, "On".toList]), some .tbool⟩),
    ("Main.Volume".toList,
      ⟨[plusOp, minusOp, eqOp, qOp], some (.intRange (-80) 0), some .tfloat⟩),
    ("Main.Bass".toList,
      ⟨[plusOp, minusOp, eqOp, qOp],
        some (.strList ["Off".toList, "On".toList]), some .tbool⟩),
    ("Main.ControlStandby".toList,
      ⟨[plusOp, minusOp, eqOp, qOp],
        some (.strList ["Off".toList, "On".toList]), some .tbool⟩),
    ("Main.AutoStandby".toList,
      ⟨[plusOp, minusOp, eqOp, qOp],
        some (.strList ["Off".toList, "On".toList]), some .tbool⟩),
    ("Main.AutoSense".toList,
      ⟨[plusOp, minusOp, eqOp, qOp],
        some (.strList ["Off".toList, "On".toList]), some .tbool⟩),
    ("Main.Source".toList,
      ⟨[plusOp, minusOp, eqOp, qOp],
        some (.strList ["Stream".toList, "Wireless".toList, "TV".toList,
          "Phono".toList, "Coax1".toList, "Coax2".toList,
          "Opt1".toList, "Opt2".toList]), none⟩),
    ("Main.Version".toList, ⟨[qOp], none, some .tfloat⟩),
    ("Main.Model".toList, ⟨[qOp], some (.strList ["NADC338".toList]), none⟩) ]

/-- `C338_CMDS[command]`: `none` models the `KeyError`. -/
def lookupCmd (c : Str) : Option CmdDesc :=
  (C338_CMDS.find? (fun p => decide (p.1 = c))).map (fun p => p.2)

/-! ## Decimal rendering and parsing (`str`, `int()`, `float()`) -/

def digitChar (d : Nat) : Char := Char.ofNat (48 + d)

/-- Big-endian decimal digits of `n`, fuel-driven so it reduces in the
kernel: `natStrAux fuel n` is correct whenever `n < fuel`. -/
def natStrAux : Nat → Nat → Str
  | 0, _ => []
  | fuel + 1, n =>
    if n < 10 then [digitChar n]
    else natStrAux fuel (n / 10) ++ [digitChar (n % 10)]

def natStr (n : Nat) : Str := natStrAux (n + 1) n

/-- Python `str` of an int. -/
def intStr (n : Int) : Str :=
  if n < 0 then '-' :: natStr n.natAbs else natStr n.natAbs

/-- Python `str` of a float whose value is integral (`-40.0` ↦ `"-40.0"`).
Non-integral floats never reach `str` in the modelled paths (all float
value domains are integral), so they get a placeholder rendering. -/
def ratStr (q : Rat) : Str :=
  if q.den = 1 then intStr q.num ++ ".0".toList
  else intStr q.num ++ '/' :: natStr q.den

/-- Python `str(value)` as used by `make_command`. -/
def pyStr : PyVal → Str
  | .pbool b => if b then "True".toList else "False".toList
  | .pint n => intStr n
  | .pfloat q => ratStr q
  | .pstr s => s

def digitVal (c : Char) : Option Nat :=
  if c.isDigit then some (c.toNat - 48) else none

def parseDigitsAux (acc : Nat) : Str → Option Nat
  | [] => some acc
  | c :: rest =>
    match digitVal c with
    | none => none
    | some d => parseDigitsAux (acc * 10 + d) rest

/-- Nonempty all-digit string to `Nat`. -/
def parseNat (s : Str) : Option Nat :=
  match s with
  | [] => none
  | _ => parseDigitsAux 0 s

/-- Python `int(string)` on the inputs the protocol produces:
an optional leading minus sign followed by decimal digits. -/
def pyParseInt (s : Str) : Option Int :=
  match s with
  | '-' :: rest => (parseNat rest).map (fun n => -(n : Int))
  | _ => (parseNat s).map (fun n => (n : Int))

def stripTrailingZeros (l : Str) : Str :=
  (l.reverse.dropWhile (fun c => c = '0')).reverse

/-- Integer part `i` plus fraction digits `fp`.  Trailing zeros of the
fraction are dropped first so that integral values are built without
rational division. -/
def floatFrac (i : Nat) (fp : Str) : Option Rat :=
  match stripTrailingZeros fp with
  | [] => some ((i : Rat))
  | fp' =>
    (parseDigitsAux 0 fp').map
      (fun f => (i : Rat) + (f : Rat) / ((10 : Rat) ^ fp'.length))

/-- Magnitude of a float literal `ip [. fp]` (at least one digit
overall). -/
def floatMag (t : Str) : Option Rat :=
  match t.dropWhile (fun c => c ≠ '.') with
  | [] => (parseNat (t.takeWhile (fun c => c ≠ '.'))).map (fun n => (n : Rat))
  | '.' :: fp =>
    if ((t.takeWhile (fun c => c ≠ '.')).all Char.isDigit && fp.all Char.isDigit)
        && !((t.takeWhile (fun c => c ≠ '.')).isEmpty && fp.isEmpty) then
      match parseDigitsAux 0 (t.takeWhile (fun c => c ≠ '.')) with
      | none => none
      | some i => floatFrac i fp
    else none
  | _ => none

/-- Python `float(string)` on the inputs the protocol produces. -/
def pyParseFloat (s : Str) : Option Rat :=
  match s with
  | '-' :: rest => (floatMag rest).map (fun q => -q)
  | _ => floatMag s

/-! ## Value coercion helpers used by `make_command` -/

/-- Python `int(value)` applied to a codec value (truncation toward
zero for floats, digits parse for strings). -/
def truthInt : PyVal → Option Int
  | .pbool b => some (if b then 1 else 0)
  | .pint n => some n
  | .pfloat q => some (Int.tdiv q.num (q.den : Int))
  | .pstr s => pyParseInt s

/-- Python `value in cmd_desc['values']`.  `range` membership holds for
ints in bounds, for bools via their numeric value, and for floats of
integral value in bounds; list membership is plain equality on strings
(a non-string value never equals a string). -/
def inDomain (v : PyVal) : Domain → Bool
  | .intRange lo hi =>
    match v with
    | .pbool b => decide (lo ≤ (if b then (1 : Int) else 0) ∧ (if b then (1 : Int) else 0) < hi)
    | .pint n => decide (lo ≤ n ∧ n < hi)
    | .pfloat q => decide (q.den = 1) && decide (lo ≤ q.num ∧ q.num < hi)
    | .pstr _ => false
  | .strList xs =>
    match v with
    | .pstr s => decide (s ∈ xs)
    | _ => false

/-- Python sequence indexing `values[i]` with negative-index support;
`none` models the `IndexError`. -/
def domIndex : Domain → Int → Option PyVal
  | .strList xs, i =>
    if 0 ≤ i ∧ i < (xs.length : Int) then (xs.get? i.toNat).map .pstr
    else if -(xs.length : Int) ≤ i ∧ i < 0 then
      (xs.get? ((xs.length : Int) + i).toNat).map .pstr
    else none
  | .intRange lo hi, i =>
    let len : Int := max 0 (hi - lo)
    if 0 ≤ i ∧ i < len then some (.pint (lo + i))
    else if -len ≤ i ∧ i < 0 then some (.pint (lo + len + i))
    else none

/-! ## `make_command` -/

/-- The value-validation block of `make_command` (the Python code from
`if 'values' in cmd_desc:` to `cmd = command + operator + str(value)`). -/
def encodeValue (command opr : Str) (desc : CmdDesc) (v : PyVal) :
    Except PyErr Str :=
  match desc.values with
  | some dom =>
    if desc.ty = some .tbool then
      match truthInt v with
      | none => .error .coercionFailure
      | some i =>
        match domIndex dom i with
        | none => .error .indexFailure
        | some v2 => .ok (command ++ opr ++ pyStr v2)
    else if inDomain v dom then .ok (command ++ opr ++ pyStr v)
    else .error .valueOutOfDomain
  | none => .ok (command ++ opr ++ pyStr v)

/-- `NADReceiverTCPC338.make_command`. -/
def make_command (command : Str) (opr : Str) (value : Option PyVal) :
    Except PyErr Str :=
  match lookupCmd command with
  | none => .error .unknownCommand
  | some desc =>
    if opr ∈ desc.ops then
      if opr = eqOp ∧ value = none then .error .missingValue
      else if (opr = qOp ∨ opr = minusOp ∨ opr = plusOp) ∧ value ≠ none then
        .error .unexpectedValue
      else
        match value with
        | none => .ok (command ++ opr)
        | some v => encodeValue command opr desc v
    else .error .unsupportedOperator

/-! ## `parse_part` -/

/-- Python `str.split(sep)` on a single-character separator: splits at
every occurrence. -/
def splitAll (sep : Char) : Str → List Str
  | [] => [[]]
  | c :: rest =>
    let r := splitAll sep rest
    if c = sep then [] :: r
    else
      match r with
      | [] => [[c]]
      | h :: t => (c :: h) :: t

/-- First index of `v` in `xs` (`list.index`); `none` models the
`ValueError` when absent. -/
def listIndex (xs : List Str) (v : Str) : Option Nat :=
  xs.findIdx? (fun x => decide (x = v))

/-- The lookup-and-coerce body of `parse_part`, applied once the line has
been unpacked into `key` and `value`.  Boolean type:
`bool(values.index(value))`; calling `.index` with a string on a `range`
domain is a `ValueError` as well. -/
def coercePart (key value : Str) : Except PyErr (Str × PyVal) :=
  match lookupCmd key with
  | none => .error .unknownCommand
  | some desc =>
    match desc.ty with
    | some .tbool =>
      match desc.values with
      | some (.strList xs) =>
        match listIndex xs value with
        | none => .error .coercionFailure
        | some i => .ok (key, .pbool (decide (i ≠ 0)))
      | _ => .error .coercionFailure
    | some .tint =>
      match pyParseInt value with
      | none => .error .coercionFailure
      | some n => .ok (key, .pint n)
    | some .tfloat =>
      match pyParseFloat value with
      | none => .error .coercionFailure
      | some q => .ok (key, .pfloat q)
    | none => .ok (key, .pstr value)

/-- `NADReceiverTCPC338.parse_part`.  `key, value = response.split('=')`
splits at every `'='` and unpacks a two-element list: any other arity is
a `ValueError` (`unpackFailure`). -/
def parse_part (response : Str) : Except PyErr (Str × PyVal) :=
  match splitAll '=' response with
  | [key, value] => coercePart key value
  | _ => .error .unpackFailure

/-! ## Receive pipeline (`data_received`) -/

/-- Split at the first occurrence of the substring `sep`
(Python `buffer.split(sep, 1)` when it finds a separator). -/
def splitOnSub? (sep : Str) : Str → Option (Str × Str)
  | [] => none
  | c :: rest =>
    if sep.isPrefixOf (c :: rest) then some ([], (c :: rest).drop sep.length)
    else
      match splitOnSub? sep rest with
      | none => none
      | some (l, r) => some (c :: l, r)

def crlf : Str := ['\r', '\n']

def volumeKey : Str := "Main.Volume".toList

def muteKey : Str := "Main.Mute".toList

def nulChar : Char := Char.ofNat 0

/-- `data.replace('\x00', '')`. -/
def stripNul (s : Str) : Str := s.filter (fun c => !decide (c = nulChar))

/-- The device-state dictionary, observed through `dget`. -/
abbrev DState := List (Str × PyVal)

def dget (d : DState) (k : Str) : Option PyVal :=
  (d.find? (fun p => decide (p.1 = k))).map (fun p => p.2)

/-- `d[k] = v`. -/
def dset (d : DState) (k : Str) (v : PyVal) : DState :=
  (k, v) :: d.filter (fun p => !decide (p.1 = k))

/-- `d.update(l)` (apply the entries of `l` in order). -/
def dmerge (d : DState) (l : DState) : DState :=
  List.foldl (fun s kv => dset s kv.1 kv.2) d l

/-- The `while '\r\n' in self._buffer:` loop of `data_received`: drains
complete lines from `buf`, accumulating the `new_state` batch in `acc`.
`st` is `self._state` as it stood before the chunk (the loop never
mutates it).  Fuel-driven for kernel reducibility; each iteration
consumes at least two characters, so `buf.length + 1` fuel always
suffices. -/
def drainLines : Nat → DState → DState → Str → Except PyErr (DState × Str)
  | 0, _, acc, buf => .ok (acc, buf)
  | fuel + 1, st, acc, buf =>
    match splitOnSub? crlf buf with
    | none => .ok (acc, buf)
    | some (line, rest) =>
      match parse_part line with
      | .error e => .error e
      | .ok (k, v) =>
        let acc1 := dset acc k v
        let acc2 :=
          if k = volumeKey ∧ dget st muteKey = some (.pbool true) then
            dset acc1 muteKey (.pbool false)
          else acc1
        drainLines fuel st acc2 rest

/-- Observable outcome of one `data_received` call: the device state,
the receive buffer, and whether the state-changed callback fired
(it fires at most once per chunk, with the merged full state). -/
structure RecvResult where
  state : DState
  buffer : Str
  notified : Bool
deriving DecidableEq, Repr

/-- `NADReceiverTCPC338.data_received` on a decoded chunk. -/
def data_received (st : DState) (buffer : Str) (data : Str) :
    Except PyErr RecvResult :=
  let buf := buffer ++ stripNul data
  match drainLines (buf.length + 1) st [] buf with
  | .error e => .error e
  | .ok (updates, buf2) =>
    if updates.isEmpty then .ok ⟨st, buf2, false⟩
    else .ok ⟨dmerge st updates, buf2, true⟩

/-! ## Client state and `exec_command` -/

/-- `CMD_MIN_INTERVAL = 0.15`. -/
def CMD_MIN_INTERVAL : Rat := (15 : Rat) / 100

/-- The mutable fields of `NADReceiverTCPC338` that `exec_command`
reads or writes. -/
structure Client where
  transport : Option Unit
  state : DState
  buffer : Str
  lastCmdTime : Rat
deriving DecidableEq, Repr

/-- What one `exec_command` call did: the (possibly updated) client and
the wire string written to the transport, if any. -/
structure SendResult where
  client : Client
  wrote : Option Str
deriving DecidableEq, Repr

/-- `NADReceiverTCPC338.exec_command`: a no-op without a transport;
otherwise waits out the throttle interval, encodes, writes, and stamps
`_last_cmd_time` with the send time. -/
def exec_command (c : Client) (now : Rat) (command opr : Str)
    (value : Option PyVal) : Except PyErr SendResult :=
  match c.transport with
  | none => .ok ⟨c, none⟩
  | some _ =>
    let sendTime := max now (c.lastCmdTime + CMD_MIN_INTERVAL)
    match make_command command opr value with
    | .error e => .error e
    | .ok cmd => .ok ⟨{ c with lastCmdTime := sendTime }, some cmd⟩

def power_off (c : Client) (now : Rat) : Except PyErr SendResult :=
  exec_command c now "Main.Power".toList eqOp (some (.pbool false))

def power_on (c : Client) (now : Rat) : Except PyErr SendResult :=
  exec_command c now "Main.Power".toList eqOp (some (.pbool true))

def set_volume (c : Client) (now : Rat) (volume : Rat) :
    Except PyErr SendResult :=
  exec_command c now "Main.Volume".toList eqOp (some (.pfloat volume))

def volume_down (c : Client) (now : Rat) : Except PyErr SendResult :=
  exec_command c now "Main.Volume".toList minusOp none

def volume_up (c : Client) (now : Rat) : Except PyErr SendResult :=
  exec_command c now "Main.Volume".toList plusOp none

def mute (c : Client) (now : Rat) : Except PyErr SendResult :=
  exec_command c now "Main.Mute".toList eqOp (some (.pbool true))

def unmute (c : Client) (now : Rat) : Except PyErr SendResult :=
  exec_command c now "Main.Mute".toList eqOp (some (.pbool false))

def select_source (c : Client) (now : Rat) (source : Str) :
    Except PyErr SendResult :=
  exec_command c now "Main.Source".toList eqOp (some (.pstr source))

/-- `drainLines` with the `self._state.get('Main.Mute')` lookup passed in
as an argument; used to evaluate the loop when the prior state is
abstract. -/
def drainAux : Nat → Option PyVal → DState → Str → Except PyErr (DState × Str)
  | 0, _, acc, buf => .ok (acc, buf)
  | fuel + 1, m, acc, buf =>
    match splitOnSub? crlf buf with
    | none => .ok (acc, buf)
    | some (line, rest) =>
      match parse_part line with
      | .error e => .error e
      | .ok (k, v) =>
        let acc1 := dset acc k v
        let acc2 :=
          if k = volumeKey ∧ m = some (.pbool true) then
            dset acc1 muteKey (.pbool false)
          else acc1
        drainAux fuel m acc2 rest

/-! ## Spec-side definitions -/

/-- The typed value domain a descriptor declares (spec §3 `valueDomain`
at the declared `valueType`): both booleans for a boolean-typed command,
the ints / integral floats of a `range` domain at the declared numeric
type, and the enumerated strings of a string command. -/
def typedDomain (d : CmdDesc) : List PyVal :=
  match d.ty, d.values with
  | some .tbool, _ => [.pbool false, .pbool true]
  | some .tint, some (.intRange lo hi) =>
    (List.range (hi - lo).toNat).map (fun i => .pint (lo + (i : Int)))
  | some .tfloat, some (.intRange lo hi) =>
    (List.range (hi - lo).toNat).map (fun i => .pfloat ((lo + (i : Int) : Int) : Rat))
  | none, some (.strList xs) => xs.map .pstr
  | _, _ => []

/-- Follows the spec's words for the decoder (§4.3): "split on the first
`=`", then look up and coerce exactly as the code does.  Compared against
`parse_part`, which splits at every `=` and rejects lines that do not
break into exactly two pieces. -/
def parse_part_firstSplit (response : Str) : Except PyErr (Str × PyVal) :=
  match splitOnSub? ['='] response with
  | some (key, value) => coercePart key value
  | none => .error .unpackFailure

end NadTcp

namespace NadTcp

set_option maxHeartbeats 1000000

/-! ## Helper lemmas -/

theorem eqOp_not_qmp : ¬(eqOp = qOp ∨ eqOp = minusOp ∨ eqOp = plusOp) := by decide

theorem make_command_eq_some {cmd : Str} {desc : CmdDesc}
    (hl : lookupCmd cmd = some desc) (hop : eqOp ∈ desc.ops) (v : PyVal) :
    make_command cmd eqOp (some v) = encodeValue cmd eqOp desc v := by
  simp [make_command, hl, hop, eqOp_not_qmp]

theorem encodeValue_nonbool {desc : CmdDesc} {dom : Domain}
    (hv : desc.values = some dom) (hty : desc.ty ≠ some .tbool)
    (cmd opr : Str) (v : PyVal) :
    encodeValue cmd opr desc v
      = if inDomain v dom then .ok (cmd ++ opr ++ pyStr v)
        else .error .valueOutOfDomain := by
  simp only [encodeValue, hv]
  rw [if_neg hty]

theorem encodeValue_result (cmd opr : Str) (desc : CmdDesc) (v : PyVal) :
    (∃ s, encodeValue cmd opr desc v = .ok s) ∨
    encodeValue cmd opr desc v = .error .coercionFailure ∨
    encodeValue cmd opr desc v = .error .indexFailure ∨
    encodeValue cmd opr desc v = .error .valueOutOfDomain := by
  unfold encodeValue
  cases hv : desc.values with
  | none => exact .inl ⟨_, rfl⟩
  | some dom =>
    dsimp only
    by_cases hty : desc.ty = some PyType.tbool
    · rw [if_pos hty]
      rcases truthInt v with _ | i
      · simp
      · dsimp only
        rcases domIndex dom i with _ | v2
        · simp
        · dsimp only
          exact .inl ⟨_, rfl⟩
    · rw [if_neg hty]
      by_cases hd : inDomain v dom
      · rw [if_pos hd]; exact .inl ⟨_, rfl⟩
      · simp [hd]

theorem inDomain_empty (v : PyVal) : inDomain v (.intRange 0 0) = false := by
  cases v with
  | pbool b => cases b <;> decide
  | pint n => simp [inDomain]
  | pfloat q => simp [inDomain]
  | pstr s => rfl

theorem mkcmd_ag_plus (v : PyVal) :
    make_command "Main.AnalogGain".toList plusOp (some v)
      = .error .unexpectedValue := rfl

theorem mkcmd_ag_minus (v : PyVal) :
    make_command "Main.AnalogGain".toList minusOp (some v)
      = .error .unexpectedValue := rfl

theorem mkcmd_ag_eq_val (v : PyVal) :
    make_command "Main.AnalogGain".toList eqOp (some v)
      = encodeValue "Main.AnalogGain".toList eqOp
          ⟨[plusOp, minusOp, eqOp, qOp], some (.intRange 0 0), some .tint⟩ v := rfl

theorem dget_dset_self (d : DState) (k : Str) (v : PyVal) :
    dget (dset d k v) k = some v := by
  simp [dget, dset]

theorem dget_dset_ne (d : DState) {k k2 : Str} (v : PyVal) (h : k2 ≠ k) :
    dget (dset d k v) k2 = dget d k2 := by
  simp only [dget, dset]
  rw [List.find?_cons_of_neg _ (by simpa using Ne.symm h)]
  congr 1
  induction d with
  | nil => rfl
  | cons p rest ih =>
    by_cases hp : p.1 = k
    · rw [List.filter_cons_of_neg (by simpa using hp),
        List.find?_cons_of_neg _ (by simp only [decide_eq_true_eq]; rw [hp]; exact Ne.symm h)]
      exact ih
    · rw [List.filter_cons_of_pos (by simpa using hp)]
      by_cases hk2 : p.1 = k2
      · rw [List.find?_cons_of_pos _ (by simpa using hk2),
          List.find?_cons_of_pos _ (by simpa using hk2)]
      · rw [List.find?_cons_of_neg _ (by simpa using hk2),
          List.find?_cons_of_neg _ (by simpa using hk2)]
        exact ih

theorem drainLines_nil (fuel : Nat) (st acc : DState) :
    drainLines fuel st acc [] = .ok (acc, []) := by
  cases fuel <;> rfl

theorem splitOnSub_crlf {l : Str} (h : '\r' ∉ l) :
    splitOnSub? crlf (l ++ crlf) = some (l, []) := by
  induction l with
  | nil => rfl
  | cons c rest ih =>
    have hc : c ≠ '\r' := fun hc => h (hc ▸ List.mem_cons_self c rest)
    have hr : '\r' ∉ rest := fun hr => h (List.mem_cons_of_mem c hr)
    have hpre : crlf.isPrefixOf (c :: (rest ++ crlf)) = false := by
      simp [crlf, List.isPrefixOf, Ne.symm hc]
    simp [splitOnSub?, hpre, ih hr]

theorem stripNul_eq_self {s : Str} (h : ∀ c ∈ s, c ≠ nulChar) :
    stripNul s = s := by
  rw [stripNul, List.filter_eq_self]
  intro c hc
  simpa using h c hc

theorem parseDigitsAux_digits {s : Str} :
    ∀ {acc n : Nat}, parseDigitsAux acc s = some n →
      ∀ c ∈ s, c.isDigit = true := by
  induction s with
  | nil => intro acc n _ c hc; cases hc
  | cons c0 rest ih =>
    intro acc n h c hc
    rw [parseDigitsAux] at h
    rcases hd : digitVal c0 with _ | d
    · rw [hd] at h; cases h
    · rw [hd] at h
      have hc0 : c0.isDigit = true := by
        by_contra hcd
        simp [digitVal, hcd] at hd
      rcases List.mem_cons.1 hc with hc2 | hc2
      · rw [hc2]; exact hc0
      · exact ih h c hc2

theorem parseNat_digits {s : Str} {n : Nat} (h : parseNat s = some n) :
    ∀ c ∈ s, c.isDigit = true := by
  rcases s with _ | ⟨c0, rest⟩
  · intro c hc; cases hc
  · exact parseDigitsAux_digits h

theorem dropWhile_head_false {p : Char → Bool} {l : Str} {c : Char} {rest : Str}
    (h : l.dropWhile p = c :: rest) : p c = false := by
  induction l with
  | nil => cases h
  | cons a l2 ih =>
    rw [List.dropWhile_cons] at h
    by_cases hp : p a
    · rw [if_pos hp] at h; exact ih h
    · rw [if_neg hp] at h
      cases h
      simpa using hp

theorem floatMag_chars {t : Str} {q : Rat} (h : floatMag t = some q) :
    ∀ c ∈ t, c = '.' ∨ c.isDigit = true := by
  intro c hc
  have ht : t = t.takeWhile (fun c => c ≠ '.') ++ t.dropWhile (fun c => c ≠ '.') :=
    (List.takeWhile_append_dropWhile _ _).symm
  rw [floatMag] at h
  rcases hd : t.dropWhile (fun c => c ≠ '.') with _ | ⟨c0, fp⟩
  · rw [hd] at h
    have h2 : (parseNat (t.takeWhile (fun c => c ≠ '.'))).map
        (fun n => (n : Rat)) = some q := h
    rcases hp : parseNat (t.takeWhile (fun c => c ≠ '.')) with _ | n2
    · rw [hp] at h2; simp at h2
    · rw [hd, List.append_nil] at ht
      exact .inr (parseNat_digits hp c (ht ▸ hc))
  · have hc0 : c0 = '.' := by
      have := dropWhile_head_false hd
      simpa using this
    subst hc0
    rw [hd] at h
    have h2 : (if (((t.takeWhile (fun c => c ≠ '.')).all Char.isDigit
          && fp.all Char.isDigit)
          && !((t.takeWhile (fun c => c ≠ '.')).isEmpty && fp.isEmpty)) = true then
        match parseDigitsAux 0 (t.takeWhile (fun c => c ≠ '.')) with
        | none => none
        | some i => floatFrac i fp
      else none) = some q := h
    by_cases hg : (((t.takeWhile (fun c => c ≠ '.')).all Char.isDigit
        && fp.all Char.isDigit)
        && !((t.takeWhile (fun c => c ≠ '.')).isEmpty && fp.isEmpty)) = true
    · simp only [Bool.and_eq_true, List.all_eq_true] at hg
      rcases List.mem_append.1 (ht ▸ hc) with hip | hrest
      · exact .inr (hg.1.1 c hip)
      · rw [hd] at hrest
        rcases List.mem_cons.1 hrest with hr2 | hr2
        · exact .inl hr2
        · exact .inr (hg.1.2 c hr2)
    · rw [if_neg hg] at h2
      cases h2

theorem pyParseFloat_chars {s : Str} {q : Rat} (h : pyParseFloat s = some q) :
    ∀ c ∈ s, c = '-' ∨ c = '.' ∨ c.isDigit = true := by
  intro c hc
  rcases s with _ | ⟨c0, rest⟩
  · cases hc
  · by_cases h0 : c0 = '-'
    · subst h0
      rw [pyParseFloat.eq_1] at h
      rcases hm : floatMag rest with _ | q2
      · rw [hm] at h; simp at h
      · rcases List.mem_cons.1 hc with hc2 | hc2
        · exact .inl hc2
        · exact .inr (floatMag_chars hm c hc2)
    · have hcond : ∀ rest2 : List Char, c0 :: rest = '-' :: rest2 → False := by
        intro rest2 he
        injection he with he1 he2
        exact h0 he1
      rw [pyParseFloat.eq_2 _ hcond] at h
      exact .inr (floatMag_chars h c hc)

theorem pyParseFloat_no_ctrl {fs : Str} {q : Rat} (h : pyParseFloat fs = some q) :
    '\r' ∉ fs ∧ '=' ∉ fs ∧ nulChar ∉ fs := by
  refine ⟨fun hm => ?_, fun hm => ?_, fun hm => ?_⟩ <;>
    rcases pyParseFloat_chars h _ hm with h1 | h1 | h1 <;>
      exact absurd h1 (by decide)

theorem splitAll_not_mem {sep : Char} {s : Str} (h : sep ∉ s) :
    splitAll sep s = [s] := by
  induction s with
  | nil => rfl
  | cons c rest ih =>
    have hc : c ≠ sep := fun hc => h (hc ▸ List.mem_cons_self c rest)
    have hr : sep ∉ rest := fun hr => h (List.mem_cons_of_mem c hr)
    simp [splitAll, hc, ih hr]

theorem splitAll_append {sep : Char} {k : Str} (rest : Str) (h : sep ∉ k) :
    splitAll sep (k ++ sep :: rest) = k :: splitAll sep rest := by
  induction k with
  | nil => simp [splitAll]
  | cons c k2 ih =>
    have hc : c ≠ sep := fun hc => h (hc ▸ List.mem_cons_self c k2)
    have hk : sep ∉ k2 := fun hk => h (List.mem_cons_of_mem c hk)
    simp [splitAll, hc, ih hk]

theorem parse_part_split_two {key val : Str} (hk : '=' ∉ key) (hv : '=' ∉ val) :
    parse_part (key ++ '=' :: val) = coercePart key val := by
  simp [parse_part, splitAll_append _ hk, splitAll_not_mem hv]

theorem drainLines_eq_aux (fuel : Nat) (st : DState) :
    ∀ acc buf, drainLines fuel st acc buf = drainAux fuel (dget st muteKey) acc buf := by
  induction fuel with
  | zero => intro acc buf; rfl
  | succ n ih =>
    intro acc buf
    rw [drainLines, drainAux]
    cases hsp : splitOnSub? crlf buf with
    | none => rfl
    | some p =>
      obtain ⟨line, rest⟩ := p
      dsimp only
      cases hp : parse_part line with
      | error e => rfl
      | ok kv =>
        obtain ⟨k, v⟩ := kv
        dsimp only
        exact ih _ _

/-! ## Claims -/

/-- C1: for every command descriptor that supports the assign operator
`=` and every value in that command's declared typed domain, decoding the
encoded assignment round-trips:
`parse_part (make_command cmd '=' v) = (cmd, v)`. -/
theorem claim1_encode_decode_roundtrip :
    ∀ p ∈ C338_CMDS, eqOp ∈ p.2.ops → ∀ v ∈ typedDomain p.2,
      (make_command p.1 eqOp (some v)).bind parse_part = .ok (p.1, v) := by
  decide

/-- Witness for C1 at `Main.Volume` with value `-40.0`. -/
theorem claim1_encode_decode_roundtrip_witness :
    (("Main.Volume".toList,
        (⟨[plusOp, minusOp, eqOp, qOp], some (.intRange (-80) 0),
          some .tfloat⟩ : CmdDesc)) ∈ C338_CMDS ∧
      PyVal.pfloat (-40) ∈ typedDomain
        ⟨[plusOp, minusOp, eqOp, qOp], some (.intRange (-80) 0), some .tfloat⟩) ∧
    (make_command "Main.Volume".toList eqOp (some (.pfloat (-40)))).bind parse_part
      = .ok ("Main.Volume".toList, .pfloat (-40)) :=
  ⟨⟨by decide, by decide⟩,
    claim1_encode_decode_roundtrip
      ("Main.Volume".toList,
        ⟨[plusOp, minusOp, eqOp, qOp], some (.intRange (-80) 0), some .tfloat⟩)
      (by decide) (by decide) (.pfloat (-40)) (by decide)⟩

/-- C3: `make_command` raises exactly these operator-validation errors:
unknown command iff the name is not in the table; unsupported operator
iff the name is known but the operator is not in the descriptor's set;
missing value iff the operator is `=` and no value is supplied;
unexpected value iff the operator is `?`, `+` or `-` and a value is
supplied. -/
theorem claim3_validation_errors :
    ∀ cmd opr value,
      ((make_command cmd opr value = .error .unknownCommand) ↔
        lookupCmd cmd = none) ∧
      ((make_command cmd opr value = .error .unsupportedOperator) ↔
        ∃ desc, lookupCmd cmd = some desc ∧ opr ∉ desc.ops) ∧
      ((make_command cmd opr value = .error .missingValue) ↔
        ∃ desc, lookupCmd cmd = some desc ∧ opr ∈ desc.ops ∧
          opr = eqOp ∧ value = none) ∧
      ((make_command cmd opr value = .error .unexpectedValue) ↔
        ∃ desc, lookupCmd cmd = some desc ∧ opr ∈ desc.ops ∧
          (opr = qOp ∨ opr = minusOp ∨ opr = plusOp) ∧ value ≠ none) := by
  intro cmd opr value
  cases hl : lookupCmd cmd with
  | none => simp [make_command, hl]
  | some desc =>
    by_cases hop : opr ∈ desc.ops
    · by_cases h1 : opr = eqOp ∧ value = none
      · obtain ⟨h1a, h1b⟩ := h1
        subst h1a; subst h1b
        have hmk : make_command cmd eqOp none = .error .missingValue := by
          simp [make_command, hl, hop]
        simp [hmk, hl, hop]
      · by_cases h2 : (opr = qOp ∨ opr = minusOp ∨ opr = plusOp) ∧ value ≠ none
        · have hmk : make_command cmd opr value = .error .unexpectedValue := by
            simp [make_command, hl, hop, h1, h2]
          simp [hmk, hl, hop, h2.1, h2.2, h1]
        · cases value with
          | none =>
            have hne : opr ≠ eqOp := fun h => h1 ⟨h, rfl⟩
            have hmk : make_command cmd opr none = .ok (cmd ++ opr) := by
              simp [make_command, hl, hop, hne]
            simp [hmk, hl, hop, hne]
          | some v =>
            have hA : ¬(opr = qOp ∨ opr = minusOp ∨ opr = plusOp) :=
              fun hA => h2 ⟨hA, by simp⟩
            have hmk : make_command cmd opr (some v) = encodeValue cmd opr desc v := by
              simp [make_command, hl, hop, h1, hA]
            rcases encodeValue_result cmd opr desc v with ⟨s, hs⟩ | hs | hs | hs <;>
              simp [hmk, hs, hl, hop, hA]
    · have hmk : make_command cmd opr value = .error .unsupportedOperator := by
        simp [make_command, hl, hop]
      simp [hmk, hl, hop]

/-- C5: with no transport open, `exec_command` — and every public
command operation built on it — is a silent no-op: no error, the client
state (including the last-command timestamp) is unchanged and nothing is
written. -/
theorem claim5_noop_when_disconnected (c : Client) (now : Rat)
    (h : c.transport = none) :
    (∀ command opr value, exec_command c now command opr value = .ok ⟨c, none⟩) ∧
    power_on c now = .ok ⟨c, none⟩ ∧ power_off c now = .ok ⟨c, none⟩ ∧
    (∀ q : Rat, set_volume c now q = .ok ⟨c, none⟩) ∧
    volume_up c now = .ok ⟨c, none⟩ ∧ volume_down c now = .ok ⟨c, none⟩ ∧
    mute c now = .ok ⟨c, none⟩ ∧ unmute c now = .ok ⟨c, none⟩ ∧
    (∀ s, select_source c now s = .ok ⟨c, none⟩) := by
  have hx : ∀ command opr value,
      exec_command c now command opr value = .ok ⟨c, none⟩ := by
    intro command opr value
    simp [exec_command, h]
  exact ⟨hx, hx _ _ _, hx _ _ _, fun q => hx _ _ _, hx _ _ _, hx _ _ _,
    hx _ _ _, hx _ _ _, fun s => hx _ _ _⟩

/-- Witness for C5 at a concrete disconnected client. -/
theorem claim5_noop_when_disconnected_witness :
    (Client.transport ⟨none, [], [], 0⟩ = none) ∧
    exec_command ⟨none, [], [], 0⟩ 7 "Main.Power".toList eqOp (some (.pbool true))
      = .ok ⟨⟨none, [], [], 0⟩, none⟩ :=
  ⟨rfl, (claim5_noop_when_disconnected ⟨none, [], [], 0⟩ 7 rfl).1 _ _ _⟩

/-- C6: for a domain-constrained non-boolean command, `make_command`
with `=` fails with the out-of-domain error exactly when the value is
not a member of the declared set, and otherwise renders
`<name>=<value>`; in particular
`make_command 'Main.Volume' '=' -40.0 = "Main.Volume=-40.0"`. -/
theorem claim6_domain_check :
    (∀ cmd desc dom v, lookupCmd cmd = some desc → desc.ty ≠ some PyType.tbool →
      desc.values = some dom → eqOp ∈ desc.ops →
      (inDomain v dom = false →
        make_command cmd eqOp (some v) = .error .valueOutOfDomain) ∧
      (inDomain v dom = true →
        make_command cmd eqOp (some v) = .ok (cmd ++ eqOp ++ pyStr v))) ∧
    make_command "Main.Volume".toList eqOp (some (.pfloat (-40)))
      = .ok "Main.Volume=-40.0".toList := by
  refine ⟨?_, by decide⟩
  intro cmd desc dom v hl hty hv hop
  rw [make_command_eq_some hl hop, encodeValue_nonbool hv hty]
  constructor
  · intro hdom; rw [hdom]; simp
  · intro hdom; rw [hdom]; simp

/-- Witness for C6 at `Main.Brightness` with the out-of-domain value 7. -/
theorem claim6_domain_check_witness :
    (lookupCmd "Main.Brightness".toList
        = some ⟨[plusOp, minusOp, eqOp, qOp], some (.intRange 0 4), some .tint⟩ ∧
      inDomain (.pint 7) (.intRange 0 4) = false) ∧
    make_command "Main.Brightness".toList eqOp (some (.pint 7))
      = .error .valueOutOfDomain :=
  ⟨⟨by decide, by decide⟩,
    (claim6_domain_check.1 "Main.Brightness".toList
      ⟨[plusOp, minusOp, eqOp, qOp], some (.intRange 0 4), some .tint⟩
      (.intRange 0 4) (.pint 7)
      (by decide) (by decide) (by decide) (by decide)).1 (by decide)⟩

/-- C7: for a boolean-typed command, `make_command` with `=` coerces the
truthy/falsy value by indexing the two-element table (0 ↦ "Off",
1 ↦ "On"); in particular `Main.Mute=On` for `True` and `Main.Mute=Off`
for `False`. -/
theorem claim7_bool_encoding :
    (∀ cmd desc, lookupCmd cmd = some desc → desc.ty = some PyType.tbool →
      desc.values = some (.strList ["Off".toList, "On".toList]) → eqOp ∈ desc.ops →
      ∀ b : Bool, make_command cmd eqOp (some (.pbool b))
        = .ok (cmd ++ eqOp ++ (if b then "On".toList else "Off".toList))) ∧
    make_command "Main.Mute".toList eqOp (some (.pbool true))
      = .ok "Main.Mute=On".toList ∧
    make_command "Main.Mute".toList eqOp (some (.pbool false))
      = .ok "Main.Mute=Off".toList := by
  refine ⟨?_, by decide, by decide⟩
  intro cmd desc hl hty hv hop b
  rw [make_command_eq_some hl hop]
  simp only [encodeValue, hv, hty, if_pos rfl]
  cases b <;> simp [truthInt, domIndex, pyStr]

/-- Witness for C7 at `Main.Power` with `True`. -/
theorem claim7_bool_encoding_witness :
    (lookupCmd "Main.Power".toList
        = some ⟨[plusOp, minusOp, eqOp, qOp],
            some (.strList ["Off".toList, "On".toList]), some .tbool⟩) ∧
    make_command "Main.Power".toList eqOp (some (.pbool true))
      = .ok ("Main.Power".toList ++ eqOp ++ "On".toList) :=
  ⟨by decide,
    claim7_bool_encoding.1 "Main.Power".toList
      ⟨[plusOp, minusOp, eqOp, qOp],
        some (.strList ["Off".toList, "On".toList]), some .tbool⟩
      (by decide) (by decide) (by decide) (by decide) true⟩

/-- C4 counterexample: the code splits on every `=` and fails to unpack
a line with two of them, whereas the claim's "split on the first `=`
only" reading (formalised by `parse_part_firstSplit`) would decode the
line `Main.Source=a=b` to the passthrough string value `a=b`. -/
theorem claim4_first_split_counterexample :
    parse_part "Main.Source=a=b".toList = .error .unpackFailure ∧
    parse_part_firstSplit "Main.Source=a=b".toList
      = .ok ("Main.Source".toList, .pstr "a=b".toList) := by
  constructor
  · decide
  · decide

/-- `splitAll` produces one piece more than there are separators. -/
theorem splitAll_length {sep : Char} (s : Str) :
    (splitAll sep s).length = s.count sep + 1 := by
  induction s with
  | nil => rfl
  | cons c rest ih =>
    simp only [splitAll]
    by_cases hc : c = sep
    · rw [if_pos hc]
      simp [List.count_cons, hc, ih]
    · rw [if_neg hc]
      rcases hsp : splitAll sep rest with _ | ⟨h0, t⟩
      · rw [hsp] at ih; simp at ih
      · rw [hsp] at ih
        dsimp only
        simp only [List.length_cons] at ih ⊢
        simp [List.count_cons, Ne.symm hc]
        omega

/-- Any split arity other than two is the unpack `ValueError`. -/
theorem parse_part_not_two {s : Str} (h : (splitAll '=' s).length ≠ 2) :
    parse_part s = .error .unpackFailure := by
  rw [parse_part.eq_def]
  rcases hsp : splitAll '=' s with _ | ⟨a, _ | ⟨b, _ | ⟨c, t⟩⟩⟩
  · rfl
  · rfl
  · rw [hsp] at h; exact absurd rfl h
  · rfl

/-- C4 amended: `parse_part` splits on `=` but requires the line to
contain exactly one `=` (any other number — zero or two-or-more — fails
with the unpack error); with exactly one it looks up the descriptor for
the name and coerces the textual value to the declared type;
`parse_part "Main.Volume=-25.0"` yields `-25.0`; it fails on an
unrecognized name and on a value whose coercion fails. -/
theorem claim4_parse_part_amended :
    (∀ s : Str, s.count '=' ≠ 1 → parse_part s = .error .unpackFailure) ∧
    (∀ key val : Str, '=' ∉ key → '=' ∉ val →
      parse_part (key ++ '=' :: val) = coercePart key val) ∧
    parse_part "Main.Volume=-25.0".toList
      = .ok ("Main.Volume".toList, .pfloat (-25)) ∧
    parse_part "Main.Foo=1".toList = .error .unknownCommand ∧
    parse_part "Main.Brightness=abc".toList = .error .coercionFailure := by
  refine ⟨?_, ?_, by decide, by decide, by decide⟩
  · intro s hs
    apply parse_part_not_two
    rw [splitAll_length]
    omega
  · intro key val hk hv
    simp [parse_part, splitAll_append _ hk, splitAll_not_mem hv]

/-- Witness for C4 (amended) at a line with three `=` separators. -/
theorem claim4_parse_part_amended_witness :
    ("Main.Source=a=b=c".toList.count '=' ≠ 1) ∧
    parse_part "Main.Source=a=b=c".toList = .error .unpackFailure :=
  ⟨by decide, claim4_parse_part_amended.1 "Main.Source=a=b=c".toList (by decide)⟩

/-- C9 counterexample: `make_command('Main.AnalogGain', '+')` does NOT
fail — it produces the wire string `"Main.AnalogGain+"`, because value
validation is skipped when no value is supplied, so the claim that all
of `+`, `-`, `=` are unreachable is false. -/
theorem claim9_analog_gain_counterexample :
    make_command "Main.AnalogGain".toList plusOp none
      = .ok "Main.AnalogGain+".toList := by
  decide

/-- C9 amended: `Main.AnalogGain` has an empty value domain, so its `=`
operator is unreachable (missing-value error without a value,
out-of-domain error with any value) and `+`/`-` with a value fail with
the unexpected-value error; but `+`/`-` with no value succeed and
produce `"Main.AnalogGain+"` / `"Main.AnalogGain-"`. -/
theorem claim9_analog_gain_amended :
    (∀ value, make_command "Main.AnalogGain".toList eqOp value
      = .error (if value = none then .missingValue else .valueOutOfDomain)) ∧
    (∀ v, make_command "Main.AnalogGain".toList plusOp (some v)
      = .error .unexpectedValue) ∧
    (∀ v, make_command "Main.AnalogGain".toList minusOp (some v)
      = .error .unexpectedValue) ∧
    make_command "Main.AnalogGain".toList plusOp none
      = .ok "Main.AnalogGain+".toList ∧
    make_command "Main.AnalogGain".toList minusOp none
      = .ok "Main.AnalogGain-".toList := by
  refine ⟨?_, mkcmd_ag_plus, mkcmd_ag_minus, by decide, by decide⟩
  intro value
  cases value with
  | none => decide
  | some v =>
    rw [mkcmd_ag_eq_val]
    simp [encodeValue, inDomain_empty]

/-- C2: for every prior device state in which `Main.Mute` is `True`,
processing a received chunk consisting of a complete line
`Main.Volume=<v>\r\n` yields a merged state in which `Main.Volume` is
the parsed value and `Main.Mute` is `False`, notified once. -/
theorem claim2_volume_clears_mute (st : DState) (fs : Str) (q : Rat)
    (hm : dget st muteKey = some (.pbool true))
    (hq : pyParseFloat fs = some q) :
    ∃ r, data_received st [] ("Main.Volume=".toList ++ fs ++ crlf) = .ok r ∧
      dget r.state volumeKey = some (.pfloat q) ∧
      dget r.state muteKey = some (.pbool false) ∧
      r.notified = true := by
  obtain ⟨hcr, heq, hnul⟩ := pyParseFloat_no_ctrl hq
  have hnorm : data_received st [] ("Main.Volume=".toList ++ fs ++ crlf)
      = data_received st [] (("Main.Volume".toList ++ '=' :: fs) ++ crlf) := rfl
  have hrs : '\r' ∉ "Main.Volume".toList ++ '=' :: fs := by
    intro hm2
    rcases List.mem_append.1 hm2 with h2 | h2
    · exact (by decide : ∀ x ∈ "Main.Volume".toList, x ≠ '\r') _ h2 rfl
    · rcases List.mem_cons.1 h2 with h2 | h2
      · exact absurd h2 (by decide)
      · exact hcr h2
  have hsplit := splitOnSub_crlf hrs
  have hnul3 : stripNul (("Main.Volume".toList ++ '=' :: fs) ++ crlf)
      = ("Main.Volume".toList ++ '=' :: fs) ++ crlf := by
    apply stripNul_eq_self
    intro c hc2
    rcases List.mem_append.1 hc2 with h2 | h2
    · rcases List.mem_append.1 h2 with h3 | h3
      · exact (by decide : ∀ x ∈ "Main.Volume".toList, x ≠ nulChar) _ h3
      · rcases List.mem_cons.1 h3 with h3 | h3
        · subst h3; decide
        · exact fun he => hnul (he ▸ h3)
    · exact (by decide : ∀ x ∈ crlf, x ≠ nulChar) _ h2
  have hlk : lookupCmd "Main.Volume".toList
      = some ⟨[plusOp, minusOp, eqOp, qOp], some (.intRange (-80) 0), some .tfloat⟩ := by
    decide
  have hcoerce : coercePart "Main.Volume".toList fs
      = .ok ("Main.Volume".toList, .pfloat q) := by
    have hstep : coercePart "Main.Volume".toList fs
        = (match pyParseFloat fs with
            | none => .error .coercionFailure
            | some q2 => .ok ("Main.Volume".toList, .pfloat q2)) := rfl
    rw [hstep, hq]
  have hparse : parse_part ("Main.Volume".toList ++ '=' :: fs)
      = .ok ("Main.Volume".toList, .pfloat q) :=
    (parse_part_split_two (by decide) heq).trans hcoerce
  have hvol : ("Main.Volume".toList : Str) = volumeKey := rfl
  have hdrain : drainLines ((("Main.Volume".toList ++ '=' :: fs) ++ crlf).length + 1)
      st [] (("Main.Volume".toList ++ '=' :: fs) ++ crlf)
      = .ok ([(muteKey, .pbool false), (volumeKey, .pfloat q)], []) := by
    rw [drainLines, hsplit]
    dsimp only
    rw [hparse]
    dsimp only
    rw [hvol, if_pos ⟨rfl, hm⟩, drainLines_nil]
    have hvm : ¬(volumeKey = muteKey) := by decide
    simp [dset, hvm]
  refine ⟨⟨dmerge st [(muteKey, .pbool false), (volumeKey, .pfloat q)], [], true⟩,
    ?_, ?_, ?_, rfl⟩
  · rw [hnorm]
    simp only [data_received, List.nil_append, hnul3, hdrain]
    rfl
  · rw [show dmerge st [(muteKey, .pbool false), (volumeKey, .pfloat q)]
        = dset (dset st muteKey (.pbool false)) volumeKey (.pfloat q) from rfl]
    exact dget_dset_self _ _ _
  · rw [show dmerge st [(muteKey, .pbool false), (volumeKey, .pfloat q)]
        = dset (dset st muteKey (.pbool false)) volumeKey (.pfloat q) from rfl,
      dget_dset_ne (dset st muteKey (.pbool false)) (.pfloat q)
        (show muteKey ≠ volumeKey by decide),
      dget_dset_self]

/-- C8: the receive pipeline buffers partial lines and notifies per
chunk: a chunk leaving no complete CRLF-terminated line in the buffer
produces no state update and no notification, and receiving
`"Main.Pow"` then `"er=On\r\n"` across two chunks yields exactly one
notification with the single state update `Main.Power = True`. -/
theorem claim8_chunk_buffering :
    (∀ st buffer data, splitOnSub? crlf (buffer ++ stripNul data) = none →
      data_received st buffer data = .ok ⟨st, buffer ++ stripNul data, false⟩) ∧
    data_received [] [] "Main.Pow".toList = .ok ⟨[], "Main.Pow".toList, false⟩ ∧
    data_received [] "Main.Pow".toList "er=On\r\n".toList
      = .ok ⟨[("Main.Power".toList, .pbool true)], [], true⟩ := by
  refine ⟨?_, by decide, by decide⟩
  intro st buffer data hns
  simp only [data_received]
  rw [drainLines, hns]
  rfl

/-- C10: the mute-clear check consults only the device state as it was
before the current chunk.  If `Main.Mute` was not `True` beforehand, a
`Main.Volume` line adds no `Main.Mute = False` entry even when a
`Main.Mute=On` line precedes it in the same chunk (the merged state
keeps `Main.Mute = True`); and a `Main.Mute=...` line decoded later in
the same chunk overwrites the auto-clear entry in the batch. -/
theorem claim10_mute_clear_prior_state (st : DState) :
    (dget st muteKey ≠ some (.pbool true) →
      ∃ r, data_received st [] "Main.Mute=On\r\nMain.Volume=-20.0\r\n".toList
          = .ok r ∧
        dget r.state muteKey = some (.pbool true) ∧
        dget r.state volumeKey = some (.pfloat (-20))) ∧
    (dget st muteKey = some (.pbool true) →
      ∃ r, data_received st [] "Main.Volume=-20.0\r\nMain.Mute=On\r\n".toList
          = .ok r ∧
        dget r.state muteKey = some (.pbool true) ∧
        dget r.state volumeKey = some (.pfloat (-20))) := by
  constructor
  · intro hm
    refine ⟨⟨dmerge st [(volumeKey, .pfloat (-20)), (muteKey, .pbool true)], [], true⟩,
      ?_, ?_, ?_⟩
    · simp only [data_received, List.nil_append, drainLines_eq_aux]
      rcases hdm : dget st muteKey with _ | v
      · rfl
      · have hv : v ≠ .pbool true := by
          intro hcontra
          rw [hcontra] at hdm
          exact hm hdm
        rcases v with b | n | q2 | s2
        · cases b
          · rfl
          · exact absurd rfl hv
        · rfl
        · rfl
        · rfl
    · rw [show dmerge st [(volumeKey, .pfloat (-20)), (muteKey, .pbool true)]
          = dset (dset st volumeKey (.pfloat (-20))) muteKey (.pbool true) from rfl]
      exact dget_dset_self _ _ _
    · rw [show dmerge st [(volumeKey, .pfloat (-20)), (muteKey, .pbool true)]
          = dset (dset st volumeKey (.pfloat (-20))) muteKey (.pbool true) from rfl,
        dget_dset_ne (dset st volumeKey (.pfloat (-20))) (.pbool true)
          (show volumeKey ≠ muteKey by decide),
        dget_dset_self]
  · intro hm
    refine ⟨⟨dmerge st [(muteKey, .pbool true), (volumeKey, .pfloat (-20))], [], true⟩,
      ?_, ?_, ?_⟩
    · simp only [data_received, List.nil_append, drainLines_eq_aux, hm]
      rfl
    · rw [show dmerge st [(muteKey, .pbool true), (volumeKey, .pfloat (-20))]
          = dset (dset st muteKey (.pbool true)) volumeKey (.pfloat (-20)) from rfl,
        dget_dset_ne (dset st muteKey (.pbool true)) (.pfloat (-20))
          (show muteKey ≠ volumeKey by decide),
        dget_dset_self]
    · rw [show dmerge st [(muteKey, .pbool true), (volumeKey, .pfloat (-20))]
          = dset (dset st muteKey (.pbool true)) volumeKey (.pfloat (-20)) from rfl]
      exact dget_dset_self _ _ _



/-- Witness for C2 at the spec's example state and chunk. -/
theorem claim2_volume_clears_mute_witness :
    (dget [(muteKey, PyVal.pbool true)] muteKey = some (.pbool true) ∧
      pyParseFloat "-10.0".toList = some (-10)) ∧
    (∃ r, data_received [(muteKey, PyVal.pbool true)] []
        ("Main.Volume=".toList ++ "-10.0".toList ++ crlf) = .ok r ∧
      dget r.state volumeKey = some (.pfloat (-10)) ∧
      dget r.state muteKey = some (.pbool false) ∧
      r.notified = true) :=
  ⟨⟨by decide, by decide⟩,
    claim2_volume_clears_mute [(muteKey, PyVal.pbool true)] "-10.0".toList (-10)
      (by decide) (by decide)⟩

/-- Witness for C8 at a chunk with no line terminator. -/
theorem claim8_chunk_buffering_witness :
    splitOnSub? crlf (([] : Str) ++ stripNul "abc".toList) = none ∧
    data_received [] [] "abc".toList = .ok ⟨[], "abc".toList, false⟩ :=
  ⟨by decide, claim8_chunk_buffering.1 [] [] "abc".toList (by decide)⟩

/-- Witness for C10 at the empty prior state (mute not set). -/
theorem claim10_mute_clear_prior_state_witness :
    (dget ([] : DState) muteKey ≠ some (.pbool true)) ∧
    (∃ r, data_received [] [] "Main.Mute=On\r\nMain.Volume=-20.0\r\n".toList
        = .ok r ∧
      dget r.state muteKey = some (.pbool true) ∧
      dget r.state volumeKey = some (.pfloat (-20))) :=
  ⟨by decide, (claim10_mute_clear_prior_state []).1 (by decide)⟩

end NadTcp
